import Mathlib

/-!
Verification development for the Verilock deadlock/livelock verifier.

The definitions below are a shallow embedding of the verifier's core
pipeline: the constraint `Environment` (src/cfsm/env.rs), the product-CFSM
synthesizer (src/cfsm/synthesis.rs) and the analysis driver
(src/analysis.rs).  Rust `HashMap`s are modelled as association lists with
a fixed per-run iteration order, Rust `HashSet`s as duplicate-free lists
compared up to membership, petgraph graphs as node/edge arenas indexed by
position, and the Z3 solver as an opaque function from constraint lists to
a three-valued verdict.  Fuel makes the BFS loop total.
-/

namespace Verilock

/-- Qualified identifier `(scope, name)`; the `gen` field models the fresh
ghost generation introduced by `Environment::update` renaming. -/
structure Var where
  scope : String
  name : String
  gen : Nat := 0
deriving DecidableEq

/-- Modelled from the spec: `Primary` of `abstraction::sv_info` (not under
`src/`): a variable, an integer literal, or an unabstractable value. -/
inductive Primary where
  | variable_ (v : Var)
  | int (i : Int)
  | unknown
deriving DecidableEq

/-- Modelled from the spec: binary integer relations of
`abstraction::sv_info::BinRel` (not under `src/`). -/
inductive BinRel where
  | eq | notEq | lt | le | gt | ge
deriving DecidableEq

/-- Modelled from the spec: `abstraction::sv_info::BoolExpression` (not
under `src/`). -/
inductive BoolExpression where
  | tru
  | fls
  | unknown
  | binary (l : Primary) (op : BinRel) (r : Primary)
  | not (e : BoolExpression)
  | and (l r : BoolExpression)
  | or (l r : BoolExpression)
deriving DecidableEq

/-- Modelled from the spec: `abstraction::protocol::Update` (not under
`src/`): the functional update `var := primary`. -/
structure Update where
  var : Var
  primary : Primary
deriving DecidableEq

/-- Channel: opaque identity (at least a name); structural equality. -/
abbrev Channel : Type := String

/-- Modelled from the spec: `abstraction::protocol::Communication` (not
under `src/`): send/receive on a channel plus the `is_external` flag. -/
inductive Communication where
  | send (ch : Channel) (ext : Bool)
  | recv (ch : Channel) (ext : Bool)
deriving DecidableEq

/-- `Communication::channel()` as used by `retrieve_channel_from_map`. -/
def Communication.channel : Communication → Channel
  | .send ch _ => ch
  | .recv ch _ => ch

/-- `Communication::is_external()` as used by `all_possible_local_steps`. -/
def Communication.isExt : Communication → Bool
  | .send _ e => e
  | .recv _ e => e

/-- `ModuleInfo`: module name plus ordered port identifiers. -/
structure ModuleInfo where
  moduleName : String
  ports : List String
deriving DecidableEq

/-- `ModuleInstance`: `{type_name, instance_name, scope}`. -/
structure ModuleInstance where
  typeName : String
  instanceName : String
  scope : String
deriving DecidableEq

/-- Modelled from the spec: `cfsm::fsm::EdgeInfo` (not under `src/`):
optional communication, optional guard, ordered update list. -/
structure EdgeInfo where
  communication : Option Communication
  guard : Option BoolExpression
  updates : List Update
deriving DecidableEq

/-- Modelled from the spec: `cfsm::fsm::BlankNode` (not under `src/`): a
fresh opaque identity; equality is by identity.  Freshness is realised by
an allocation counter threaded through the synthesis state. -/
structure BlankNode where
  id : Nat
deriving DecidableEq

/-- Modelled from the spec: a petgraph `Graph<BlankNode, EdgeInfo>` as a
node arena plus an edge arena; `NodeIndex`/`EdgeIndex` are positions. -/
structure FSM where
  nodes : List BlankNode
  edges : List (Nat × Nat × EdgeInfo)
deriving DecidableEq

def FSM.new : FSM := ⟨[], []⟩

/-- `Graph::add_node`: returns the updated graph and the new index. -/
def FSM.addNode (f : FSM) (w : BlankNode) : FSM × Nat :=
  (⟨f.nodes ++ [w], f.edges⟩, f.nodes.length)

/-- `Graph::add_edge`. -/
def FSM.addEdge (f : FSM) (s t : Nat) (w : EdgeInfo) : FSM :=
  ⟨f.nodes, f.edges ++ [(s, t, w)]⟩

/-- `Graph::edge_weight`. -/
def FSM.edgeWeight (f : FSM) (e : Nat) : Option EdgeInfo :=
  (f.edges.get? e).map (fun p => p.2.2)

/-- `Graph::edge_endpoints`. -/
def FSM.edgeEndpoints (f : FSM) (e : Nat) : Option (Nat × Nat) :=
  (f.edges.get? e).map (fun p => (p.1, p.2.1))

/-- `Graph::edges(n)`: the outgoing edges of `n` with their indices. -/
def FSM.outEdges (f : FSM) (n : Nat) : List (Nat × EdgeInfo) :=
  (List.range f.edges.length).filterMap fun i =>
    match f.edges.get? i with
    | some (s, _, w) => if s = n then some (i, w) else none
    | none => none

/-- `CFSM`: module info, initial node, final nodes, labelled graph. -/
structure CFSM where
  module : ModuleInfo
  initial : Nat
  finals : List Nat
  fsm : FSM
deriving DecidableEq

/-- Modelled from the spec: `cfsm::fsm::AnonymousCFSM` (not under
`src/`), the synthesizer's result before the parent info is attached. -/
structure AnonymousCFSM where
  initial : Nat
  finals : List Nat
  fsm : FSM
deriving DecidableEq

/-- Modelled from the spec: `error::Action` (not under `src/`): subject
instance plus a description of the edge; the description is modelled by
the described edge's info (`None` at a lookup failure the Rust code would
panic on). -/
structure Action where
  subject : ModuleInstance
  action : Option EdgeInfo
deriving DecidableEq

/-- Modelled from the spec: `error::VerilockError` (not under `src/`),
restricted to the variants the embedded core produces. -/
inductive VerilockError where
  | unsolvableConstraints (constraints : List BoolExpression)
  | danglingSending (trace : List Action) (dangling : Action)
  | danglingReceiving (trace : List Action) (dangling : Action)
  | liveLock (module : ModuleInstance)
deriving DecidableEq

instance {ε α : Type} [DecidableEq ε] [DecidableEq α] :
    DecidableEq (Except ε α) := fun a b =>
  match a, b with
  | .ok x, .ok y =>
    if h : x = y then .isTrue (by rw [h]) else
      .isFalse (fun hc => by cases hc; exact h rfl)
  | .ok _, .error _ => .isFalse (fun hc => by cases hc)
  | .error _, .ok _ => .isFalse (fun hc => by cases hc)
  | .error x, .error y =>
    if h : x = y then .isTrue (by rw [h]) else
      .isFalse (fun hc => by cases hc; exact h rfl)

/-! ### The SMT collaborator

The solver is out of scope ("treated as an opaque decision procedure"):
it is modelled as an arbitrary function from the asserted constraint list
to a three-valued verdict, with soundness as a separate predicate stated
against the encoding semantics of `env.rs`. -/

inductive SatResult where
  | sat | unsat | unknown
deriving DecidableEq

def Solver : Type := List BoolExpression → SatResult

/-- Integer semantics of a `Primary` under an assignment;
`encode_primary` maps `Unknown` to no term (`None`). -/
def evalPrimary (σ : Var → Int) : Primary → Option Int
  | .variable_ v => some (σ v)
  | .int i => some i
  | .unknown => none

def evalRel : BinRel → Int → Int → Bool
  | .eq, a, b => a = b
  | .notEq, a, b => a ≠ b
  | .lt, a, b => a < b
  | .le, a, b => a ≤ b
  | .gt, a, b => a > b
  | .ge, a, b => a ≥ b

/-- Boolean semantics of the encoding of `encode_bool_expression`
(src/cfsm/env.rs): `Unknown` encodes to true, and a binary constraint
with an `Unknown` primary is dropped (encoded as true). -/
def evalBool (σ : Var → Int) : BoolExpression → Bool
  | .tru => true
  | .fls => false
  | .unknown => true
  | .binary l op r =>
    match evalPrimary σ l, evalPrimary σ r with
    | some a, some b => evalRel op a b
    | _, _ => true
  | .not e => !evalBool σ e
  | .and l r => evalBool σ l && evalBool σ r
  | .or l r => evalBool σ l || evalBool σ r

/-- Semantic satisfiability of a constraint list under the encoding. -/
def SemSat (cs : List BoolExpression) : Prop :=
  ∃ σ : Var → Int, ∀ c ∈ cs, evalBool σ c = true

/-- A solver is sound when `sat`/`unsat` verdicts are semantically
correct; `unknown` is unconstrained. -/
def SolverSound (s : Solver) : Prop :=
  ∀ cs, (s cs = .sat → SemSat cs) ∧ (s cs = .unsat → ¬SemSat cs)

/-! ### Environment (src/cfsm/env.rs)

`im::HashSet<BoolExpression>` is modelled as a duplicate-free list; its
derived equality is set equality, modelled by `envEquiv` below. -/

structure Environment where
  env : List BoolExpression
deriving DecidableEq

def Environment.new : Environment := ⟨[]⟩

/-- `Environment::extend`: insert the constraint into the set. -/
def Environment.extend (e : Environment) (b : BoolExpression) : Environment :=
  if b ∈ e.env then e else ⟨b :: e.env⟩

/-- Largest ghost generation mentioned in an expression. -/
def maxGenP : Primary → Nat
  | .variable_ v => v.gen
  | _ => 0

def maxGenB : BoolExpression → Nat
  | .binary l _ r => max (maxGenP l) (maxGenP r)
  | .not e => maxGenB e
  | .and l r => max (maxGenB l) (maxGenB r)
  | .or l r => max (maxGenB l) (maxGenB r)
  | _ => 0

/-- Modelled from the spec: `BoolExpression::invalidate_and_rebind_var`
(in `abstraction`, not under `src/`): every occurrence of `v` is replaced
by a fresh ghost of `v`, here the same qualified name at generation `g`. -/
def rebindP (v : Var) (g : Nat) : Primary → Primary
  | .variable_ w => if w = v then .variable_ { w with gen := g } else .variable_ w
  | p => p

def rebindB (v : Var) (g : Nat) : BoolExpression → BoolExpression
  | .binary l op r => .binary (rebindP v g l) op (rebindP v g r)
  | .not e => .not (rebindB v g e)
  | .and l r => .and (rebindB v g l) (rebindB v g r)
  | .or l r => .or (rebindB v g l) (rebindB v g r)
  | e => e

/-- `Environment::update`: rename previous constraints on `u.var` to a
fresh ghost, then assert `u.var = u.primary`. -/
def Environment.update (e : Environment) (u : Update) : Environment :=
  let g := (e.env.foldl (fun acc c => max acc (maxGenB c)) u.var.gen) + 1
  let old := e.env.map (rebindB u.var g)
  let eq := BoolExpression.binary (.variable_ u.var) .eq u.primary
  if eq ∈ old then ⟨old⟩ else ⟨eq :: old⟩

/-- `Environment::satisfiable`: encode the constraint set into the
solver's scope; `Unsat ↦ Ok false`, `Sat ↦ Ok true`, `Unknown ↦
Err(UnsolvableConstraints)`. -/
def Environment.satisfiable (e : Environment) (s : Solver) :
    Except VerilockError Bool :=
  match s e.env with
  | .unsat => .ok false
  | .unknown => .error (.unsolvableConstraints e.env)
  | .sat => .ok true

/-- Set equality of environments: the derived equality of the underlying
`im::HashSet`, used by the visited-set of the BFS. -/
def envEquiv (a b : Environment) : Bool :=
  a.env.all (fun c => c ∈ b.env) && b.env.all (fun c => c ∈ a.env)

/-! ### Synthesizer (src/cfsm/synthesis.rs)

`HashMap`s are association lists whose order stands for the map's fixed
per-run iteration order; `insert` on a present key replaces in place, as
the Rust map does. -/

def assocFind {α β : Type} [DecidableEq α] :
    List (α × β) → α → Option β
  | [], _ => none
  | (k, v) :: rest, a => if k = a then some v else assocFind rest a

def assocUpdate {α β : Type} [DecidableEq α] :
    List (α × β) → α → β → List (α × β)
  | [], k, v => [(k, v)]
  | (k', v') :: rest, k, v =>
    if k' = k then (k, v) :: rest else (k', v') :: assocUpdate rest k v

/-- `HashSet::insert` on a duplicate-free list. -/
def setInsert {α : Type} [DecidableEq α] (l : List α) (a : α) : List α :=
  if a ∈ l then l else l ++ [a]

/-- `type Group = HashMap<ModuleInstance, CFSM>`. -/
abbrev Group : Type := List (ModuleInstance × CFSM)

/-- `LocalConfigurations`: module instance → current local node. -/
abbrev LocalConfigurations : Type := List (ModuleInstance × Nat)

/-- `type LocalStep = (ModuleInstance, NodeIndex, EdgeIndex)`. -/
abbrev LocalStep : Type := ModuleInstance × Nat × Nat

inductive SynthesisStep where
  | jump (instance_ : ModuleInstance) (sourceId : Nat) (edgeId : Nat)
  | external (instance_ : ModuleInstance) (sourceId : Nat) (edgeId : Nat)
  | match_ (sendInstance : ModuleInstance) (sendSource : Nat) (sendEdge : Nat)
      (recvInstance : ModuleInstance) (recvSource : Nat) (recvEdge : Nat)
deriving DecidableEq

/-- The environment an edge is tested against: the current environment
extended with the edge's guard (when present), then updated by each of
the edge's updates in order (src/cfsm/synthesis.rs, lines 504-511). -/
def extendEnvByEdge (edge : EdgeInfo) (env : Environment) : Environment :=
  let extended := match edge.guard with
    | some g => env.extend g
    | none => env
  edge.updates.foldl (fun e u => e.update u) extended

/-- The `satisfiable` flag of `all_possible_local_steps`
(src/cfsm/synthesis.rs, lines 501-519): edges with no guard and no
updates short-circuit to `true`; otherwise the extended environment is
queried, and a solver error (`unknown`) is reported and treated as
`false`. -/
def edgeFeasible (solver : Solver) (env : Environment) (edge : EdgeInfo) :
    Bool :=
  if edge.guard = none ∧ edge.updates = [] then true
  else
    match (extendEnvByEdge edge env).satisfiable solver with
    | .ok sat => sat
    | .error _ => false

/-- The edges at an instance's current node that pass the feasibility
test. -/
def enabledEdges (group : Group) (solver : Solver) (env : Environment)
    (p : ModuleInstance × Nat) : List (Nat × EdgeInfo) :=
  match assocFind group p.1 with
  | none => []
  | some cfsm =>
    (cfsm.fsm.outEdges p.2).filter fun q => edgeFeasible solver env q.2

/-- The `jumps` component of `all_possible_local_steps`: enabled edges
with no communication. -/
def jumpSteps (locals : LocalConfigurations) (group : Group)
    (env : Environment) (solver : Solver) : List LocalStep :=
  locals.flatMap fun p =>
    (enabledEdges group solver env p).filterMap fun q =>
      match q.2.communication with
      | none => some (p.1, p.2, q.1)
      | some _ => none

/-- The `externals` component: enabled edges whose communication has
`is_external = true`. -/
def externalSteps (locals : LocalConfigurations) (group : Group)
    (env : Environment) (solver : Solver) : List LocalStep :=
  locals.flatMap fun p =>
    (enabledEdges group solver env p).filterMap fun q =>
      match q.2.communication with
      | some c => if c.isExt then some (p.1, p.2, q.1) else none
      | none => none

/-- The `internal_sendings` component: enabled internal sends. -/
def sendingSteps (locals : LocalConfigurations) (group : Group)
    (env : Environment) (solver : Solver) : List LocalStep :=
  locals.flatMap fun p =>
    (enabledEdges group solver env p).filterMap fun q =>
      match q.2.communication with
      | some (.send _ ext) => if ext then none else some (p.1, p.2, q.1)
      | _ => none

/-- The `internal_receivings` component: enabled internal receives. -/
def receivingSteps (locals : LocalConfigurations) (group : Group)
    (env : Environment) (solver : Solver) : List LocalStep :=
  locals.flatMap fun p =>
    (enabledEdges group solver env p).filterMap fun q =>
      match q.2.communication with
      | some (.recv _ ext) => if ext then none else some (p.1, p.2, q.1)
      | _ => none

/-- `all_possible_local_steps`: classify each enabled edge as a jump, an
external communication, an internal send, or an internal receive. -/
def allPossibleLocalSteps (locals : LocalConfigurations) (group : Group)
    (env : Environment) (solver : Solver) :
    List LocalStep × List LocalStep × List LocalStep × List LocalStep :=
  (jumpSteps locals group env solver, externalSteps locals group env solver,
    sendingSteps locals group env solver,
    receivingSteps locals group env solver)

/-- `retrieve_channel_from_map` (lookup failures the Rust code would
panic on yield `none`). -/
def retrieveChannelFromMap (instance_ : ModuleInstance) (edgeId : Nat)
    (group : Group) : Option Channel :=
  ((assocFind group instance_).bind fun cfsm =>
    (cfsm.fsm.edgeWeight edgeId).bind fun e => e.communication).map
    Communication.channel

/-- `construct_action_description`; `describe()` of the edge is modelled
by the edge's info itself. -/
def constructActionDescription (instance_ : ModuleInstance) (edgeId : Nat)
    (group : Group) : Action :=
  ⟨instance_, (assocFind group instance_).bind fun cfsm =>
    cfsm.fsm.edgeWeight edgeId⟩

/-- The step-derivation part of `generate_all_possible_synthesis_steps`:
every jump and every external becomes a step, and every
`(InternalSend, InternalRecv)` pair from two different instances over the
same channel becomes a `Match` step. -/
def deriveSteps (jumps externals sendings receivings : List LocalStep)
    (group : Group) : List SynthesisStep :=
  (jumps.map fun p => SynthesisStep.jump p.1 p.2.1 p.2.2) ++
  (externals.map fun p => SynthesisStep.external p.1 p.2.1 p.2.2) ++
  (sendings.flatMap fun s =>
    receivings.filterMap fun r =>
      if s.1 ≠ r.1 ∧
          retrieveChannelFromMap s.1 s.2.2 group =
            retrieveChannelFromMap r.1 r.2.2 group then
        some (SynthesisStep.match_ s.1 s.2.1 s.2.2 r.1 r.2.1 r.2.2)
      else none)

/-- `generate_all_possible_synthesis_steps` (src/cfsm/synthesis.rs, lines
393-451): when no step is derivable, a leftover internal send reports
`DanglingSending`, else a leftover internal receive reports
`DanglingReceiving`; with no leftover internals the configuration is
terminal and no error is raised. -/
def generateAllPossibleSynthesisSteps (locals : LocalConfigurations)
    (env : Environment) (solver : Solver) (group : Group)
    (errorTrace : List Action) :
    Except VerilockError (List SynthesisStep) :=
  let sendings := sendingSteps locals group env solver
  let receivings := receivingSteps locals group env solver
  let steps := deriveSteps (jumpSteps locals group env solver)
    (externalSteps locals group env solver) sendings receivings group
  if steps.isEmpty then
    match sendings with
    | (name, _, edgeId) :: _ =>
      .error (.danglingSending errorTrace
        (constructActionDescription name edgeId group))
    | [] =>
      match receivings with
      | (name, _, edgeId) :: _ =>
        .error (.danglingReceiving errorTrace
          (constructActionDescription name edgeId group))
      | [] => .ok steps
  else .ok steps

/-- `merge_guard`: conjunction of two optional guards with single-sided
guards preserved as-is. -/
def mergeGuard (sGuard rGuard : Option BoolExpression) :
    Option BoolExpression :=
  match sGuard, rGuard with
  | some s, some r => some (.and s r)
  | some s, none => some s
  | none, r => r

/-- `step_to_edge_info`: `Jump`/`External` copy the underlying edge; a
`Match` collapses the pair into a silent edge with merged guards and the
sender's updates followed by the receiver's. -/
def stepToEdgeInfo (group : Group) : SynthesisStep → Option EdgeInfo
  | .jump i _ e => (assocFind group i).bind fun c => c.fsm.edgeWeight e
  | .external i _ e => (assocFind group i).bind fun c => c.fsm.edgeWeight e
  | .match_ si _ se ri _ re =>
    ((assocFind group si).bind fun c => c.fsm.edgeWeight se).bind fun sE =>
      ((assocFind group ri).bind fun c => c.fsm.edgeWeight re).map fun rE =>
        ⟨none, mergeGuard sE.guard rE.guard, sE.updates ++ rE.updates⟩

/-- `modify_environment_by_edge`: extend with the guard, then apply the
updates in order. -/
def modifyEnvironmentByEdge (edge : EdgeInfo) (env : Environment) :
    Environment :=
  let e := match edge.guard with
    | some g => env.extend g
    | none => env
  edge.updates.foldl (fun acc u => acc.update u) e

/-- `record_used_edges`. -/
def recordUsedEdges (used : List (ModuleInstance × Nat)) :
    SynthesisStep → List (ModuleInstance × Nat)
  | .jump i _ e => setInsert used (i, e)
  | .external i _ e => setInsert used (i, e)
  | .match_ si _ se ri _ re => setInsert (setInsert used (si, se)) (ri, re)

/-- `retrieve_next_node`: target endpoint of an instance's edge. -/
def retrieveNextNode (group : Group) (instance_ : ModuleInstance)
    (edgeId : Nat) : Option Nat :=
  ((assocFind group instance_).bind fun c =>
    c.fsm.edgeEndpoints edgeId).map fun p => p.2

/-- `next_local_configurations`: advance only the participating
instance(s) (a lookup failure the Rust code would panic on leaves the
configuration unchanged). -/
def nextLocalConfigurations (group : Group)
    (current : LocalConfigurations) :
    SynthesisStep → LocalConfigurations
  | .jump i _ e =>
    match retrieveNextNode group i e with
    | some t => assocUpdate current i t
    | none => current
  | .external i _ e =>
    match retrieveNextNode group i e with
    | some t => assocUpdate current i t
    | none => current
  | .match_ si _ se ri _ re =>
    let afterSend := match retrieveNextNode group si se with
      | some t => assocUpdate current si t
      | none => current
    match retrieveNextNode group ri re with
    | some t => assocUpdate afterSend ri t
    | none => afterSend

/-- `record_error_trace`: one action for a jump or an external, two
(send then recv) for a match. -/
def recordErrorTrace (oldTrace : List Action) (step : SynthesisStep)
    (group : Group) : List Action :=
  match step with
  | .jump i _ e => oldTrace ++ [constructActionDescription i e group]
  | .external i _ e => oldTrace ++ [constructActionDescription i e group]
  | .match_ si _ se ri _ re =>
    oldTrace ++ [constructActionDescription si se group,
      constructActionDescription ri re group]

/-- The `(instance, edgeId)` pairs of one CFSM, as collected by
`check_live_locked`. -/
def instEdgePairs (instance_ : ModuleInstance) (cfsm : CFSM) :
    List (ModuleInstance × Nat) :=
  (List.range cfsm.fsm.edges.length).map fun e => (instance_, e)

/-- `check_live_locked`: the first instance whose CFSM is non-empty and
whose edges are disjoint from the used-edge set. -/
def checkLiveLocked (group : Group)
    (used : List (ModuleInstance × Nat)) : Option ModuleInstance :=
  match group with
  | [] => none
  | (instance_, cfsm) :: rest =>
    let edges := instEdgePairs instance_ cfsm
    if !edges.isEmpty ∧ edges.all fun p => decide (p ∉ used) then
      some instance_
    else checkLiveLocked rest used

/-- Rust `Vec::sort` on node indices, by insertion sort. -/
def insertSortedNat (a : Nat) : List Nat → List Nat
  | [] => [a]
  | b :: rest => if a ≤ b then a :: b :: rest else b :: insertSortedNat a rest

def sortNat : List Nat → List Nat
  | [] => []
  | a :: rest => insertSortedNat a (sortNat rest)

/-- `initial_nodes`: the group's initial local nodes, sorted. -/
def initialNodes (group : Group) : List Nat :=
  sortNat (group.map fun p => p.2.initial)

/-- The global-node memo `HashMap<Vec<NodeIndex>, BlankNode>` together
with the fresh-identity counter behind `BlankNode::new()`. -/
structure NodeAlloc where
  map : List (List Nat × BlankNode)
  next : Nat
deriving DecidableEq

/-- `retrieve_or_construct_node`: return the memoized global node for
this exact key vector, or allocate a fresh `BlankNode`. -/
def retrieveOrConstructNode (st : NodeAlloc) (nodes : List Nat) :
    BlankNode × NodeAlloc :=
  match assocFind st.map nodes with
  | some n => (n, st)
  | none => (⟨st.next⟩, ⟨st.map ++ [(nodes, ⟨st.next⟩)], st.next + 1⟩)

/-- The key vector `local_configurations.values().cloned().collect()`:
the current nodes in the configuration map's iteration order — NOT
sorted (src/cfsm/synthesis.rs, lines 124-127 and 251-266). -/
def configKey (locals : LocalConfigurations) : List Nat :=
  locals.map fun p => p.2

structure GlobalConfiguration where
  node : BlankNode
  env : Environment
deriving DecidableEq

/-- Equality of global configurations as derived in Rust: identical
node, set-equal environment. -/
def configEq (a b : GlobalConfiguration) : Bool :=
  a.node = b.node && envEquiv a.env b.env

/-- No two entries of the list are the same global configuration (same
node, set-equal environment): the revisit discipline of the BFS. -/
def VisitedDistinct (l : List GlobalConfiguration) : Prop :=
  l.Pairwise fun a b => configEq a b = false

structure SynthesisState where
  localConfigurations : LocalConfigurations
  currentEnv : Environment
  errorTrace : List Action
deriving DecidableEq

/-- `synthesis_state_to_config`. -/
def synthesisStateToConfig (st : SynthesisState) (alloc : NodeAlloc) :
    GlobalConfiguration × NodeAlloc :=
  let r := retrieveOrConstructNode alloc (configKey st.localConfigurations)
  (⟨r.1, st.currentEnv⟩, r.2)

/-- `find_index_by_weight_or_insert_node`. -/
def findIndexByWeightOrInsertNode (fsm : FSM)
    (cache : List (BlankNode × Nat)) (w : BlankNode) :
    Nat × FSM × List (BlankNode × Nat) :=
  match assocFind cache w with
  | some i => (i, fsm, cache)
  | none =>
    let (fsm', i) := fsm.addNode w
    (i, fsm', cache ++ [(w, i)])

/-- `return_to_initial_state`. -/
def returnToInitialState (initial : Option BlankNode) (n : BlankNode) :
    Bool :=
  match initial with
  | some i => i = n
  | none => false

/-- The mutable state of `start_synthesizing_fsm`'s BFS loop. -/
structure LoopState where
  alloc : NodeAlloc
  usedEdges : List (ModuleInstance × Nat)
  fsm : FSM
  nodeCache : List (BlankNode × Nat)
  visited : List GlobalConfiguration
  queue : List SynthesisState
  initial : Option Nat
  initialNode : Option BlankNode
deriving DecidableEq

/-- The body of the per-step `for` loop (src/cfsm/synthesis.rs, lines
140-169): record used edges, advance the participants, emit the product
edge, and enqueue the successor unless visited or back at the initial
global node. -/
def applyStep (group : Group) (s : SynthesisState) (sourceId : Nat)
    (initialNode : Option BlankNode) (st : LoopState)
    (step : SynthesisStep) : LoopState :=
  let used := recordUsedEdges st.usedEdges step
  let nextCfgs := nextLocalConfigurations group s.localConfigurations step
  let roc := retrieveOrConstructNode st.alloc (configKey nextCfgs)
  let fi := findIndexByWeightOrInsertNode st.fsm st.nodeCache roc.1
  let edge := (stepToEdgeInfo group step).getD ⟨none, none, []⟩
  let nextEnv := modifyEnvironmentByEdge edge s.currentEnv
  let fsm2 := fi.2.1.addEdge sourceId fi.1 edge
  let nextTrace := recordErrorTrace s.errorTrace step group
  let nextState : SynthesisState := ⟨nextCfgs, nextEnv, nextTrace⟩
  let sc := synthesisStateToConfig nextState roc.2
  if (st.visited.any fun c => configEq c sc.1) = false ∧
      returnToInitialState initialNode sc.1.node = false then
    { st with
        alloc := sc.2
        usedEdges := used
        fsm := fsm2
        nodeCache := fi.2.2
        visited := st.visited ++ [sc.1]
        queue := st.queue ++ [nextState] }
  else
    { st with
        alloc := sc.2
        usedEdges := used
        fsm := fsm2
        nodeCache := fi.2.2 }

/-- One iteration of the BFS `while let` loop over a dequeued state. -/
def processState (group : Group) (solver : Solver) (st : LoopState)
    (s : SynthesisState) : Except VerilockError LoopState :=
  let roc := retrieveOrConstructNode st.alloc (configKey s.localConfigurations)
  let fi := findIndexByWeightOrInsertNode st.fsm st.nodeCache roc.1
  let ini : Option Nat × Option BlankNode :=
    match st.initial with
    | none => (some fi.1, some roc.1)
    | some i => (some i, st.initialNode)
  match generateAllPossibleSynthesisSteps s.localConfigurations
      s.currentEnv solver group s.errorTrace with
  | .error e => .error e
  | .ok steps =>
    .ok (steps.foldl (applyStep group s fi.1 ini.2)
      { st with
          alloc := roc.2
          fsm := fi.2.1
          nodeCache := fi.2.2
          initial := ini.1
          initialNode := ini.2 })

/-- The result assembled once the queue is empty (src/cfsm/synthesis.rs,
lines 171-178): report a livelock, or return the synthesized FSM with an
empty finals set. -/
def finishSynthesis (group : Group) (st : LoopState) :
    LoopState × Option (Except VerilockError AnonymousCFSM) :=
  match checkLiveLocked group st.usedEdges with
  | some instance_ => (st, some (.error (.liveLock instance_)))
  | none => (st, some (.ok ⟨st.initial.getD 0, [], st.fsm⟩))

/-- The BFS loop of `start_synthesizing_fsm`, made total by fuel; `none`
in the second component means the fuel ran out with the queue still
non-empty. -/
def synthLoop (group : Group) (solver : Solver) :
    Nat → LoopState →
    LoopState × Option (Except VerilockError AnonymousCFSM)
  | fuel, st =>
    match st.queue with
    | [] => finishSynthesis group st
    | s :: rest =>
      match fuel with
      | 0 => (st, none)
      | fuel' + 1 =>
        match processState group solver { st with queue := rest } s with
        | .error e => (st, some (.error e))
        | .ok st' => synthLoop group solver fuel' st'

/-- The initial global node computed in `synthesize` (lines 67-70) from
the SORTED initial local nodes. -/
def synthesizePreludeNode (group : Group) : BlankNode :=
  (retrieveOrConstructNode ⟨[], 0⟩ (initialNodes group)).1

/-- `synthesize` followed by `start_synthesizing_fsm`: build the memo
with the sorted initial key, seed the visited set and the queue with the
initial configuration (keyed UNSORTED via `synthesis_state_to_config`),
run the BFS, and attach the parent's module info.  Returns the final
loop state alongside the result for inspection. -/
def synthesizeRun (group : Group) (parent : ModuleInfo) (solver : Solver)
    (fuel : Nat) :
    LoopState × Option (Except VerilockError CFSM) :=
  let alloc1 := (retrieveOrConstructNode ⟨[], 0⟩ (initialNodes group)).2
  let locals : LocalConfigurations := group.map fun p => (p.1, p.2.initial)
  let st0 : SynthesisState := ⟨locals, Environment.new, []⟩
  let sc := synthesisStateToConfig st0 alloc1
  let ls0 : LoopState :=
    ⟨sc.2, [], FSM.new, [], [sc.1], [st0], none, none⟩
  let r := synthLoop group solver fuel ls0
  (r.1, r.2.map fun x => x.map fun a =>
    ({ module := parent, initial := a.initial, finals := a.finals,
       fsm := a.fsm } : CFSM))

/-- Product of the local state-space sizes of the group's CFSMs. -/
def prodLocalSizes (group : Group) : Nat :=
  group.foldl (fun acc p => acc * p.2.fsm.nodes.length) 1

/-! ### Analysis driver (src/analysis.rs)

Only the dependency-forest loop of `analyze` (lines 36-55) decides the
error-propagation claim; the per-tree verification
`analyze_dependency_tree` is abstracted as a function parameter. -/

structure AnalysisOutcome (τ : Type) where
  processed : List τ
  reported : List VerilockError
  verifiedPrinted : Bool
deriving DecidableEq

/-- The `for tree in dependency_forest` loop: on the first error, report
it, set `error_detected` and `break`. -/
def analyzeForestGo {τ : Type}
    (verify : τ → Except VerilockError Unit) :
    List τ → List τ × Option VerilockError
  | [] => ([], none)
  | t :: rest =>
    match verify t with
    | .ok _ =>
      let (ps, e) := analyzeForestGo verify rest
      (t :: ps, e)
    | .error e => ([t], some e)

/-- `analyze`'s observable outcome on a dependency forest: which trees
were verified, which errors were reported, and whether `verified` was
printed. -/
def analyzeForest {τ : Type} (verify : τ → Except VerilockError Unit)
    (forest : List τ) : AnalysisOutcome τ :=
  let (ps, e) := analyzeForestGo verify forest
  ⟨ps, e.toList, e.isNone⟩

/-! ### Concrete fixtures used by counterexamples and witnesses -/

def iA : ModuleInstance := ⟨"MA", "a", "Top"⟩

def iB : ModuleInstance := ⟨"MB", "b", "Top"⟩

def infoA : ModuleInfo := ⟨"MA", []⟩

def infoB : ModuleInfo := ⟨"MB", []⟩

def parentInfo : ModuleInfo := ⟨"Top", []⟩

def varX : Var := ⟨"MA", "x", 0⟩

/-- Guard `x = 0`. -/
def guardA : BoolExpression :=
  .binary (.variable_ varX) .eq (.int 0)

/-- Guard `x = 1`. -/
def guardB : BoolExpression :=
  .binary (.variable_ varX) .eq (.int 1)

/-- A solver answering `sat` exactly on the three constraint sets the
bound counterexample queries (each genuinely satisfiable), `unknown`
elsewhere. -/
def solverBound : Solver := fun cs =>
  if cs = [] ∨ cs = [guardA] ∨ cs = [guardB] then .sat else .unknown

/-- One instance, two local nodes, two parallel guarded jumps `0 → 1`:
node 1 is reached under two different environments. -/
def cfsmBound : CFSM :=
  ⟨infoA, 0, [],
    ⟨[⟨0⟩, ⟨1⟩],
      [(0, 1, ⟨none, some guardA, []⟩), (0, 1, ⟨none, some guardB, []⟩)]⟩⟩

def groupBound : Group := [(iA, cfsmBound)]

/-- Two instances whose configuration map lists node 1 before node 0, so
the unsorted memo key `[1, 0]` differs from the sorted key `[0, 1]`. -/
def cfsmKeyA : CFSM := ⟨infoA, 1, [], ⟨[⟨0⟩, ⟨1⟩], []⟩⟩

def cfsmKeyB : CFSM := ⟨infoB, 0, [], ⟨[⟨2⟩], []⟩⟩

def groupKey : Group := [(iA, cfsmKeyA), (iB, cfsmKeyB)]

/-- A self-loop edge with no guard and no updates. -/
def edgePlain : EdgeInfo := ⟨none, none, []⟩

def cfsmPlain : CFSM := ⟨infoA, 0, [], ⟨[⟨0⟩], [(0, 0, edgePlain)]⟩⟩

def groupPlain : Group := [(iA, cfsmPlain)]

/-- An environment already containing `False`. -/
def envFalse : Environment := ⟨[.fls]⟩

/-- A solver that correctly reports a constraint set containing the
literal `False` as unsatisfiable. -/
def solverFalse : Solver := fun cs =>
  if BoolExpression.fls ∈ cs then .unsat else .sat

/-- A guarded edge (guard `True`). -/
def edgeGuarded : EdgeInfo := ⟨none, some .tru, []⟩

def groupGuarded : Group :=
  [(iA, ⟨infoA, 0, [], ⟨[⟨0⟩], [(0, 0, edgeGuarded)]⟩⟩)]

/-- A solver that always answers `unknown` (trivially sound). -/
def solverUnknown : Solver := fun _ => .unknown

/-- A solver answering `sat` exactly on lists of `True` literals
(trivially sound). -/
def solverTru : Solver := fun cs =>
  if cs.all fun c => c = BoolExpression.tru then .sat else .unknown

/-- A per-tree verification that fails on tree `0` and succeeds
elsewhere. -/
def verifyEx : Nat → Except VerilockError Unit := fun n =>
  if n = 0 then .error (.liveLock iA) else .ok ()

/-- An internal send on channel `c0` with no matching receiver. -/
def edgeSend : EdgeInfo := ⟨some (.send "c0" false), none, []⟩

def cfsmSend : CFSM := ⟨infoA, 0, [], ⟨[⟨0⟩, ⟨1⟩], [(0, 1, edgeSend)]⟩⟩

def groupSend : Group := [(iA, cfsmSend)]

/-- The matching internal receive on channel `c0`. -/
def edgeRecv : EdgeInfo := ⟨some (.recv "c0" false), none, []⟩

def cfsmRecv : CFSM := ⟨infoB, 0, [], ⟨[⟨0⟩, ⟨1⟩], [(0, 1, edgeRecv)]⟩⟩

/-- A send and its matching receive in two different instances. -/
def groupMatch : Group := [(iA, cfsmSend), (iB, cfsmRecv)]

def localsMatch : LocalConfigurations := [(iA, 0), (iB, 0)]

/-- A one-edge CFSM used to exhibit a livelocked instance. -/
def groupLive : Group := [(iB, cfsmRecv)]

/-! ## Shared lemmas -/

theorem solverTru_sound : SolverSound solverTru := by
  intro cs
  constructor
  · intro h
    unfold solverTru at h
    split at h
    · next hall =>
      refine ⟨fun _ => 0, fun c hc => ?_⟩
      have hct := List.all_eq_true.mp hall c hc
      have hc' : c = BoolExpression.tru := of_decide_eq_true hct
      subst hc'
      rfl
    · cases h
  · intro h
    unfold solverTru at h
    split at h <;> cases h

theorem mem_extend_of_mem {e : Environment} {b c : BoolExpression}
    (h : c ∈ e.env) : c ∈ (e.extend b).env := by
  unfold Environment.extend
  split
  · exact h
  · exact List.mem_cons_of_mem _ h

theorem synthLoop_empty_queue (group : Group) (solver : Solver)
    (fuel : Nat) (st : LoopState) (h : st.queue = []) :
    synthLoop group solver fuel st = finishSynthesis group st := by
  unfold synthLoop
  rw [h]

theorem synthLoop_cons (group : Group) (solver : Solver) (fuel : Nat)
    (st : LoopState) (s : SynthesisState) (rest : List SynthesisState)
    (h : st.queue = s :: rest) :
    synthLoop group solver (fuel + 1) st =
      match processState group solver { st with queue := rest } s with
      | .error e => (st, some (.error e))
      | .ok st' => synthLoop group solver fuel st' := by
  conv_lhs => rw [synthLoop]
  rw [h]

theorem edgeFeasible_eq_true_iff (s : Solver) (env : Environment)
    (edge : EdgeInfo) :
    edgeFeasible s env edge = true ↔
      ((edge.guard = none ∧ edge.updates = []) ∨
        (extendEnvByEdge edge env).satisfiable s = .ok true) := by
  unfold edgeFeasible
  split
  · next hc => simp [hc]
  · next hc =>
    cases hr : (extendEnvByEdge edge env).satisfiable s with
    | ok b => cases b <;> simp [hc]
    | error e => simp [hc]

theorem analyzeForestGo_firstError {τ : Type}
    (verify : τ → Except VerilockError Unit) (pre : List τ) (t : τ)
    (post : List τ) (e : VerilockError)
    (hpre : ∀ x ∈ pre, verify x = .ok ()) (ht : verify t = .error e) :
    analyzeForestGo verify (pre ++ t :: post) = (pre ++ [t], some e) := by
  induction pre with
  | nil => simp [analyzeForestGo, ht]
  | cons x rest ih =>
    have hx : verify x = .ok () := hpre x (List.mem_cons_self _ _)
    have hrest : ∀ y ∈ rest, verify y = .ok () := fun y hy =>
      hpre y (List.mem_cons_of_mem _ hy)
    simp [analyzeForestGo, hx, ih hrest]

theorem generateSteps_eq (locals : LocalConfigurations)
    (env : Environment) (solver : Solver) (group : Group)
    (trace : List Action) :
    generateAllPossibleSynthesisSteps locals env solver group trace =
      (if (deriveSteps (jumpSteps locals group env solver)
            (externalSteps locals group env solver)
            (sendingSteps locals group env solver)
            (receivingSteps locals group env solver) group).isEmpty then
        match sendingSteps locals group env solver with
        | (name, _, edgeId) :: _ =>
          .error (.danglingSending trace
            (constructActionDescription name edgeId group))
        | [] =>
          match receivingSteps locals group env solver with
          | (name, _, edgeId) :: _ =>
            .error (.danglingReceiving trace
              (constructActionDescription name edgeId group))
          | [] => .ok (deriveSteps (jumpSteps locals group env solver)
              (externalSteps locals group env solver)
              (sendingSteps locals group env solver)
              (receivingSteps locals group env solver) group)
      else .ok (deriveSteps (jumpSteps locals group env solver)
          (externalSteps locals group env solver)
          (sendingSteps locals group env solver)
          (receivingSteps locals group env solver) group)) := rfl

/-! ## Claim theorems -/

/-- Claim C9 (confirmed): for every `Environment` `e` and
`BoolExpression` `b`, if a sound solver answers `sat` on the extended
environment `e.extend(b)` — that is, `satisfiable` returns `Ok(true)` —
then `e` itself is satisfiable. -/
theorem extend_satisfiable_implies_satisfiable (s : Solver)
    (e : Environment) (b : BoolExpression) (hs : SolverSound s)
    (h : (e.extend b).satisfiable s = .ok true) : SemSat e.env := by
  have hsat : s (e.extend b).env = .sat := by
    unfold Environment.satisfiable at h
    cases hr : s (e.extend b).env with
    | sat => rfl
    | unsat => rw [hr] at h; simp at h
    | unknown => rw [hr] at h; simp at h
  obtain ⟨σ, hσ⟩ := (hs (e.extend b).env).1 hsat
  exact ⟨σ, fun c hc => hσ c (mem_extend_of_mem hc)⟩

/-- Witness for C9 at `e = Environment.new`, `b = True`, with the sound
solver `solverTru` which answers `sat` on `[True]`. -/
theorem extend_satisfiable_implies_satisfiable_witness :
    SemSat (Environment.new).env :=
  extend_satisfiable_implies_satisfiable solverTru Environment.new .tru
    solverTru_sound (by decide)

/-- Claim C2 counterexample: on the guarded edge `edgeGuarded` under the
empty environment, the solver returns unknown (`satisfiable` is an
`UnsolvableConstraints` error), yet the edge's feasibility is `false`
and the edge IS pruned from `enabledEdges` — not treated as true as the
claim states. -/
theorem solver_unknown_edge_pruned :
    (extendEnvByEdge edgeGuarded Environment.new).satisfiable
        solverUnknown = .error (.unsolvableConstraints [.tru]) ∧
    edgeFeasible solverUnknown Environment.new edgeGuarded = false ∧
    (0, edgeGuarded) ∉
      enabledEdges groupGuarded solverUnknown Environment.new (iA, 0) := by
  decide

/-- Claim C2 amended: for every edge carrying a guard or an update, when
the solver returns unknown on the edge's extended environment
(`satisfiable` returns the recoverable `UnsolvableConstraints`
diagnostic), the edge's feasibility is treated as FALSE, so the edge is
pruned from exploration. -/
theorem solver_unknown_treated_as_infeasible (s : Solver)
    (env : Environment) (edge : EdgeInfo) (err : VerilockError)
    (hg : ¬(edge.guard = none ∧ edge.updates = []))
    (h : (extendEnvByEdge edge env).satisfiable s = .error err) :
    edgeFeasible s env edge = false := by
  unfold edgeFeasible
  rw [if_neg hg, h]

/-- Witness for the amended C2 at the guarded edge and the
always-unknown solver. -/
theorem solver_unknown_treated_as_infeasible_witness :
    edgeFeasible solverUnknown Environment.new edgeGuarded = false :=
  solver_unknown_treated_as_infeasible solverUnknown Environment.new
    edgeGuarded (.unsolvableConstraints [.tru]) (by decide) (by decide)

/-- Claim C4 counterexample: the guard-free, update-free self-loop
`edgePlain` is classified as enabled although its extended environment —
which equals the current environment `envFalse` — is reported
unsatisfiable (`Ok(false)`) by the solver, contradicting the claimed
"enabled iff the extended environment is satisfiable". -/
theorem plain_edge_enabled_despite_unsat_env :
    (0, edgePlain) ∈
        enabledEdges groupPlain solverFalse envFalse (iA, 0) ∧
    extendEnvByEdge edgePlain envFalse = envFalse ∧
    envFalse.satisfiable solverFalse = .ok false := by
  decide

/-- Claim C4 amended: an outgoing edge is classified as enabled iff it
either carries no guard and no updates (in which case the solver is
never consulted and the edge is unconditionally enabled), or its
extended environment — the current environment extended with the guard
and updated by the updates in order — is reported satisfiable. -/
theorem edge_enabled_iff (group : Group) (s : Solver) (env : Environment)
    (p : ModuleInstance × Nat) (cfsm : CFSM) (i : Nat) (edge : EdgeInfo)
    (hf : assocFind group p.1 = some cfsm) :
    ((i, edge) ∈ enabledEdges group s env p ↔
      (i, edge) ∈ cfsm.fsm.outEdges p.2 ∧
        ((edge.guard = none ∧ edge.updates = []) ∨
          (extendEnvByEdge edge env).satisfiable s = .ok true)) := by
  unfold enabledEdges
  rw [hf, List.mem_filter]
  exact and_congr Iff.rfl (edgeFeasible_eq_true_iff s env edge)

/-- Witness for the amended C4 at the guard-free self-loop under the
unsatisfiable environment. -/
theorem edge_enabled_iff_witness :
    (0, edgePlain) ∈ enabledEdges groupPlain solverFalse envFalse (iA, 0) :=
  (edge_enabled_iff groupPlain solverFalse envFalse (iA, 0) cfsmPlain 0
    edgePlain (by decide)).mpr (by decide)

/-- Claim C1 counterexample: in a two-tree forest whose first tree fails
verification, the driver reports the error but the second tree is never
processed — the loop `break`s — contradicting "still runs verification
on every remaining tree". -/
theorem error_in_first_tree_stops_second :
    (analyzeForest verifyEx [0, 1]).processed = [0] ∧
    (analyzeForest verifyEx [0, 1]).processed ≠ [0, 1] ∧
    (analyzeForest verifyEx [0, 1]).reported = [.liveLock iA] ∧
    (analyzeForest verifyEx [0, 1]).verifiedPrinted = false := by
  decide

/-- Claim C1 amended: when verification of one tree fails with a fatal
error, the driver reports that error and STOPS: the trees before the
failing one are verified, the failing tree is the last one processed,
the remaining trees are skipped, and `verified` is not printed. -/
theorem analysis_stops_at_first_error {τ : Type}
    (verify : τ → Except VerilockError Unit) (pre : List τ) (t : τ)
    (post : List τ) (e : VerilockError)
    (hpre : ∀ x ∈ pre, verify x = .ok ()) (ht : verify t = .error e) :
    analyzeForest verify (pre ++ t :: post) = ⟨pre ++ [t], [e], false⟩ := by
  unfold analyzeForest
  rw [analyzeForestGo_firstError verify pre t post e hpre ht]
  rfl

/-- Witness for the amended C1: a three-tree forest whose middle tree
fails; the last tree is not processed. -/
theorem analysis_stops_at_first_error_witness :
    analyzeForest verifyEx [1, 0, 5] = ⟨[1, 0], [.liveLock iA], false⟩ :=
  analysis_stops_at_first_error verifyEx [1] 0 [5] (.liveLock iA)
    (by decide) (by decide)

/-- Claim C10 (confirmed): on the empty group, synthesis succeeds for
every solver (the solver is never consulted: the result is uniform in
it) and returns a CFSM carrying the given parent `ModuleInfo`, whose
graph has exactly one node, whose initial node is that node (index 0),
with no edges and an empty finals set. -/
theorem synthesize_empty_group (solver : Solver) (parent : ModuleInfo)
    (fuel : Nat) :
    (synthesizeRun [] parent solver (fuel + 1)).2 =
      some (.ok ⟨parent, 0, [], ⟨[⟨0⟩], []⟩⟩) := by
  have hmain : synthLoop [] solver (fuel + 1)
      ⟨⟨[([], ⟨0⟩)], 1⟩, [], ⟨[], []⟩, [], [⟨⟨0⟩, ⟨[]⟩⟩],
        [⟨[], ⟨[]⟩, []⟩], none, none⟩ =
      finishSynthesis []
        ⟨⟨[([], ⟨0⟩)], 1⟩, [], ⟨[⟨0⟩], []⟩, [(⟨0⟩, 0)], [⟨⟨0⟩, ⟨[]⟩⟩],
          [], some 0, some ⟨0⟩⟩ := by
    rw [synthLoop_cons [] solver fuel _ _ _ rfl]
    have hp : processState [] solver
        ⟨⟨[([], ⟨0⟩)], 1⟩, [], ⟨[], []⟩, [], [⟨⟨0⟩, ⟨[]⟩⟩], [], none,
          none⟩ ⟨[], ⟨[]⟩, []⟩ =
        .ok ⟨⟨[([], ⟨0⟩)], 1⟩, [], ⟨[⟨0⟩], []⟩, [(⟨0⟩, 0)],
          [⟨⟨0⟩, ⟨[]⟩⟩], [], some 0, some ⟨0⟩⟩ := rfl
    rw [hp]
    exact synthLoop_empty_queue [] solver fuel _ rfl
  calc (synthesizeRun [] parent solver (fuel + 1)).2
      = ((synthLoop [] solver (fuel + 1)
          ⟨⟨[([], ⟨0⟩)], 1⟩, [], ⟨[], []⟩, [], [⟨⟨0⟩, ⟨[]⟩⟩],
            [⟨[], ⟨[]⟩, []⟩], none, none⟩).2).map
          (fun r => r.map fun a =>
            ({ module := parent, initial := a.initial,
               finals := a.finals, fsm := a.fsm } : CFSM)) := rfl
    _ = some (.ok ⟨parent, 0, [], ⟨[⟨0⟩], []⟩⟩) := by rw [hmain]; rfl

/-- Claim C3 evaluated at the failing input: the memo
`retrieve_or_construct_node` is keyed by the exact key vector, and the
BFS keys it with the UNSORTED `values()` order while `synthesize` keys
the initial node with the SORTED order; on `groupKey` (instance `a` at
local node 1, instance `b` at local node 0) the same multiset of local
nodes receives two distinct `BlankNode` identities, and the initial
local configuration maps to a global node different from the
precomputed initial global node. -/
theorem memo_key_not_sorted :
    (retrieveOrConstructNode
        (retrieveOrConstructNode ⟨[], 0⟩ [0, 1]).2 [1, 0]).1 ≠
      (retrieveOrConstructNode ⟨[], 0⟩ [0, 1]).1 ∧
    ([1, 0] : List Nat).Perm [0, 1] ∧
    initialNodes groupKey = [0, 1] ∧
    configKey (groupKey.map fun p => (p.1, p.2.initial)) = [1, 0] ∧
    synthesizePreludeNode groupKey = ⟨0⟩ ∧
    (synthesizeRun groupKey parentInfo solverUnknown 5).1.initialNode =
      some ⟨1⟩ := by
  decide

/-- Claim C7 counterexample: on the finite single-instance group
`groupBound` (two local nodes, two guarded jumps) the BFS terminates
successfully, yet it visits 3 global configurations while the product
of the local state-space sizes is 2 — the visited set distinguishes
environments, so the claimed bound fails.  The sets the solver declared
satisfiable really are satisfiable. -/
theorem visited_exceeds_product :
    (synthesizeRun groupBound parentInfo solverBound 10).2 =
      some (.ok ⟨parentInfo, 0, [],
        ⟨[⟨0⟩, ⟨1⟩],
          [(0, 1, ⟨none, some guardA, []⟩),
           (0, 1, ⟨none, some guardB, []⟩)]⟩⟩) ∧
    (synthesizeRun groupBound parentInfo solverBound 10).1.visited.length
        = 3 ∧
    prodLocalSizes groupBound = 2 ∧
    SemSat [] ∧ SemSat [guardA] ∧ SemSat [guardB] :=
  ⟨by decide, by decide, by decide, ⟨fun _ => 0, by decide⟩,
    ⟨fun _ => 0, by decide⟩, ⟨fun _ => 1, by decide⟩⟩

/-- Claim C5 (confirmed): at a dequeued configuration, step generation
fails exactly when the derived step set is empty and at least one
enabled local edge was classified as an internal send or an internal
receive; a `DanglingSending` carrying the error trace and a description
of the first internal send is reported when some internal send is
enabled, otherwise a `DanglingReceiving` for the first internal receive;
with no enabled local edges at all the configuration is terminal and no
error is raised. -/
theorem dangling_error_characterization (locals : LocalConfigurations)
    (env : Environment) (solver : Solver) (group : Group)
    (trace : List Action)
    (jumps externals sendings receivings : List LocalStep)
    (hj : jumpSteps locals group env solver = jumps)
    (hx : externalSteps locals group env solver = externals)
    (hs : sendingSteps locals group env solver = sendings)
    (hr : receivingSteps locals group env solver = receivings) :
    ((∃ e, generateAllPossibleSynthesisSteps locals env solver group trace
        = .error e) ↔
      (deriveSteps jumps externals sendings receivings group = [] ∧
        (sendings ≠ [] ∨ receivings ≠ [])))
    ∧ (∀ name src edgeId rest,
        sendings = (name, src, edgeId) :: rest →
        deriveSteps jumps externals sendings receivings group = [] →
        generateAllPossibleSynthesisSteps locals env solver group trace =
          .error (.danglingSending trace
            (constructActionDescription name edgeId group)))
    ∧ (∀ name src edgeId rest,
        sendings = [] → receivings = (name, src, edgeId) :: rest →
        deriveSteps jumps externals sendings receivings group = [] →
        generateAllPossibleSynthesisSteps locals env solver group trace =
          .error (.danglingReceiving trace
            (constructActionDescription name edgeId group)))
    ∧ (jumps = [] → externals = [] → sendings = [] → receivings = [] →
        generateAllPossibleSynthesisSteps locals env solver group trace =
          .ok []) := by
  have heq := generateSteps_eq locals env solver group trace
  rw [hj, hx, hs, hr] at heq
  cases hst : deriveSteps jumps externals sendings receivings group with
  | cons a l =>
    rw [hst] at heq
    simp only [List.isEmpty_cons, Bool.false_eq_true, if_false] at heq
    refine ⟨?_, ?_, ?_, ?_⟩
    · rw [heq]
      constructor
      · rintro ⟨e, he⟩; cases he
      · rintro ⟨hnil, _⟩; cases hnil
    · intro name src edgeId rest hsend hd; cases hd
    · intro name src edgeId rest hse hre hd; cases hd
    · intro h1 h2 h3 h4
      rw [h1, h2, h3, h4] at hst
      simp [deriveSteps] at hst
  | nil =>
    rw [hst] at heq
    simp only [List.isEmpty_nil, if_true] at heq
    cases hsd : sendings with
    | cons sp srest =>
      obtain ⟨name, src, edgeId⟩ := sp
      rw [hsd] at heq
      refine ⟨?_, ?_, ?_, ?_⟩
      · rw [heq]
        exact ⟨fun _ => ⟨rfl, Or.inl (by simp)⟩, fun _ => ⟨_, rfl⟩⟩
      · intro n s eId rest hsend hd
        injection hsend with h1 h2
        injection h1 with ha hb
        injection hb with hc hd2
        subst ha; subst hc; subst hd2
        rw [heq]
      · intro n s eId rest hse hre hd; cases hse
      · intro h1 h2 h3 h4; cases h3
    | nil =>
      rw [hsd] at heq
      cases hrd : receivings with
      | cons rp rrest =>
        obtain ⟨name, src, edgeId⟩ := rp
        rw [hrd] at heq
        refine ⟨?_, ?_, ?_, ?_⟩
        · rw [heq]
          exact ⟨fun _ => ⟨rfl, Or.inr (by simp)⟩, fun _ => ⟨_, rfl⟩⟩
        · intro n s eId rest hsend hd; cases hsend
        · intro n s eId rest hse hre hd
          injection hre with h1 h2
          injection h1 with ha hb
          injection hb with hc hd2
          subst ha; subst hc; subst hd2
          rw [heq]
        · intro h1 h2 h3 h4; cases h4
      | nil =>
        rw [hrd] at heq
        refine ⟨?_, ?_, ?_, ?_⟩
        · rw [heq]
          constructor
          · rintro ⟨e, he⟩; cases he
          · rintro ⟨_, h | h⟩
            · exact absurd rfl h
            · exact absurd rfl h
        · intro n s eId rest hsend hd; cases hsend
        · intro n s eId rest hse hre hd; cases hre
        · intro _ _ _ _
          rw [heq]

/-- Witness for C5: a lone internal send with no matching receiver
raises `DanglingSending` with the empty trace and the send's
description. -/
theorem dangling_error_characterization_witness :
    generateAllPossibleSynthesisSteps [(iA, 0)] Environment.new solverTru
        groupSend [] =
      .error (.danglingSending []
        (constructActionDescription iA 0 groupSend)) :=
  ((dangling_error_characterization [(iA, 0)] Environment.new solverTru
      groupSend [] [] [] [(iA, 0, 0)] [] (by decide) (by decide)
      (by decide) (by decide)).2.1) iA 0 0 [] rfl (by decide)

theorem mem_instEdgePairs (i j : ModuleInstance) (e : Nat) (cfsm : CFSM) :
    (j, e) ∈ instEdgePairs i cfsm ↔ j = i ∧ e < cfsm.fsm.edges.length := by
  unfold instEdgePairs
  rw [List.mem_map]
  constructor
  · rintro ⟨a, ha, hEq⟩
    rw [List.mem_range] at ha
    injection hEq with h1 h2
    exact ⟨h1.symm, h2 ▸ ha⟩
  · rintro ⟨h1, h2⟩
    exact ⟨e, List.mem_range.mpr h2, by rw [h1]⟩

theorem liveLockCond_iff (i : ModuleInstance) (cfsm : CFSM)
    (used : List (ModuleInstance × Nat)) :
    ((!(instEdgePairs i cfsm).isEmpty) = true ∧
      ((instEdgePairs i cfsm).all fun p => decide (p ∉ used)) = true) ↔
      (cfsm.fsm.edges ≠ [] ∧
        ∀ e, e < cfsm.fsm.edges.length → (i, e) ∉ used) := by
  constructor
  · rintro ⟨h1, h2⟩
    constructor
    · intro hnil
      rw [Bool.not_eq_true'] at h1
      rw [List.isEmpty_eq_false_iff_exists_mem] at h1
      obtain ⟨p, hp⟩ := h1
      rw [mem_instEdgePairs i p.1 p.2 cfsm] at hp
      rw [hnil] at hp
      exact Nat.not_lt_zero _ hp.2
    · intro e he
      have := List.all_eq_true.mp h2 (i, e)
        ((mem_instEdgePairs i i e cfsm).mpr ⟨rfl, he⟩)
      exact of_decide_eq_true this
  · rintro ⟨h1, h2⟩
    constructor
    · rw [Bool.not_eq_true']
      rw [List.isEmpty_eq_false_iff_exists_mem]
      cases hx : cfsm.fsm.edges with
      | nil => exact absurd hx h1
      | cons a l =>
        refine ⟨(i, 0), (mem_instEdgePairs i i 0 cfsm).mpr ⟨rfl, ?_⟩⟩
        rw [hx]; exact Nat.succ_le_succ (Nat.zero_le _)
    · rw [List.all_eq_true]
      intro p hp
      obtain ⟨q1, q2⟩ := p
      rw [mem_instEdgePairs] at hp
      obtain ⟨hq1, hq2⟩ := hp
      subst hq1
      exact decide_eq_true (h2 q2 hq2)

theorem checkLiveLocked_eq_none_iff (group : Group)
    (used : List (ModuleInstance × Nat)) :
    checkLiveLocked group used = none ↔
      ∀ p ∈ group, p.2.fsm.edges ≠ [] →
        ∃ e, e < p.2.fsm.edges.length ∧ (p.1, e) ∈ used := by
  induction group with
  | nil => simp [checkLiveLocked]
  | cons hd tl ih =>
    obtain ⟨i, cfsm⟩ := hd
    unfold checkLiveLocked
    dsimp only
    split
    · next hcond =>
      rw [liveLockCond_iff] at hcond
      constructor
      · intro h; cases h
      · intro hall
        obtain ⟨e, he, hu⟩ := hall (i, cfsm) (List.mem_cons_self _ _) hcond.1
        exact absurd hu (hcond.2 e he)
    · next hcond =>
      rw [liveLockCond_iff] at hcond
      rw [ih]
      constructor
      · intro h p hp hne
        rcases List.mem_cons.mp hp with heq | htl
        · subst heq
          by_cases hc1 : cfsm.fsm.edges = []
          · exact absurd hc1 hne
          · have : ¬∀ e, e < cfsm.fsm.edges.length → (i, e) ∉ used := by
              intro hforall
              exact hcond ⟨hc1, hforall⟩
            push_neg at this
            obtain ⟨e, he, hu⟩ := this
            exact ⟨e, he, hu⟩
        · exact h p htl hne
      · intro h p hp hne
        exact h p (List.mem_cons_of_mem _ hp) hne

theorem checkLiveLocked_eq_some (group : Group)
    (used : List (ModuleInstance × Nat)) (i : ModuleInstance)
    (h : checkLiveLocked group used = some i) :
    ∃ cfsm, (i, cfsm) ∈ group ∧ cfsm.fsm.edges ≠ [] ∧
      ∀ e, e < cfsm.fsm.edges.length → (i, e) ∉ used := by
  induction group with
  | nil => cases h
  | cons hd tl ih =>
    obtain ⟨j, cfsm⟩ := hd
    unfold checkLiveLocked at h
    dsimp only at h
    split at h
    · next hcond =>
      rw [liveLockCond_iff] at hcond
      injection h with h1
      subst h1
      exact ⟨cfsm, List.mem_cons_self _ _, hcond.1, hcond.2⟩
    · next =>
      obtain ⟨c, hc1, hc2, hc3⟩ := ih h
      exact ⟨c, List.mem_cons_of_mem _ hc1, hc2, hc3⟩

theorem finishSynthesis_fst (group : Group) (st : LoopState) :
    (finishSynthesis group st).1 = st := by
  unfold finishSynthesis
  cases checkLiveLocked group st.usedEdges <;> rfl

/-- Claim C6 (confirmed): after the BFS queue empties, synthesis returns
a `LiveLock` naming instance `i` exactly when `check_live_locked` flags
`i`; `check_live_locked` returns no instance iff every instance with a
non-empty CFSM has some edge in the used-edges set, and any instance it
returns has a non-empty CFSM all of whose edges are outside the
used-edges set. -/
theorem check_live_locked_characterization (group : Group)
    (used : List (ModuleInstance × Nat)) :
    (checkLiveLocked group used = none ↔
      ∀ p ∈ group, p.2.fsm.edges ≠ [] →
        ∃ e, e < p.2.fsm.edges.length ∧ (p.1, e) ∈ used)
    ∧ (∀ i, checkLiveLocked group used = some i →
        ∃ cfsm, (i, cfsm) ∈ group ∧ cfsm.fsm.edges ≠ [] ∧
          ∀ e, e < cfsm.fsm.edges.length → (i, e) ∉ used)
    ∧ (∀ (solver : Solver) (fuel : Nat) (st : LoopState)
        (i : ModuleInstance), st.queue = [] → st.usedEdges = used →
        ((synthLoop group solver fuel st).2 =
            some (.error (.liveLock i)) ↔
          checkLiveLocked group used = some i)) := by
  refine ⟨checkLiveLocked_eq_none_iff group used,
    fun i h => checkLiveLocked_eq_some group used i h, ?_⟩
  intro solver fuel st i hq hu
  rw [synthLoop_empty_queue group solver fuel st hq]
  unfold finishSynthesis
  rw [hu]
  cases hc : checkLiveLocked group used with
  | some j => simp
  | none => simp

/-- Witness for C6: the one-instance group `groupLive` with an empty
used-edge set is flagged, and the flagged instance satisfies the
characterization. -/
theorem check_live_locked_characterization_witness :
    ∃ cfsm, (iB, cfsm) ∈ groupLive ∧ cfsm.fsm.edges ≠ [] ∧
      ∀ e, e < cfsm.fsm.edges.length →
        (iB, e) ∉ ([] : List (ModuleInstance × Nat)) :=
  (check_live_locked_characterization groupLive []).2.1 iB (by decide)


theorem mem_outEdges {f : FSM} {n i : Nat} {w : EdgeInfo} :
    (i, w) ∈ f.outEdges n ↔ ∃ t, f.edges.get? i = some (n, t, w) := by
  unfold FSM.outEdges
  rw [List.mem_filterMap]
  constructor
  · rintro ⟨a, ha, hmatch⟩
    cases hg : f.edges.get? a with
    | none => rw [hg] at hmatch; cases hmatch
    | some trip =>
      obtain ⟨s, t, w'⟩ := trip
      rw [hg] at hmatch
      dsimp only at hmatch
      by_cases hs : s = n
      · rw [if_pos hs] at hmatch
        injection hmatch with h1
        injection h1 with h2 h3
        subst h2; subst h3; subst hs
        exact ⟨t, hg⟩
      · rw [if_neg hs] at hmatch; cases hmatch
  · rintro ⟨t, hg⟩
    refine ⟨i, ?_, ?_⟩
    · rw [List.mem_range]
      obtain ⟨hlt, _⟩ := List.get?_eq_some.mp hg
      exact hlt
    · rw [hg]
      dsimp only
      rw [if_pos rfl]

theorem mem_sendingSteps_iff (locals : LocalConfigurations) (group : Group)
    (env : Environment) (solver : Solver) (a : ModuleInstance) (b c : Nat) :
    (a, b, c) ∈ sendingSteps locals group env solver ↔
      ((a, b) ∈ locals ∧ ∃ edge ch,
        (c, edge) ∈ enabledEdges group solver env (a, b) ∧
        edge.communication = some (.send ch false)) := by
  unfold sendingSteps
  rw [List.mem_flatMap]
  constructor
  · rintro ⟨p, hp, hmem⟩
    rw [List.mem_filterMap] at hmem
    obtain ⟨q, hq, hmatch⟩ := hmem
    cases hcomm : q.2.communication with
    | none => rw [hcomm] at hmatch; cases hmatch
    | some comm =>
      cases comm with
      | send ch ext =>
        rw [hcomm] at hmatch
        dsimp only at hmatch
        cases ext with
        | true => simp at hmatch
        | false =>
          rw [if_neg (by simp)] at hmatch
          injection hmatch with h1
          injection h1 with ha hb
          injection hb with hc hd
          subst ha; subst hc; subst hd
          refine ⟨?_, q.2, ch, ?_, hcomm⟩
          · have hpe : p = (p.1, p.2) := rfl
            rw [← hpe]; exact hp
          · have hqe2 : q = (q.1, q.2) := rfl
            rw [← hqe2]; exact hq
      | recv ch ext => rw [hcomm] at hmatch; cases hmatch
  · rintro ⟨hpl, edge, ch, hqe, hcomm⟩
    refine ⟨(a, b), hpl, ?_⟩
    rw [List.mem_filterMap]
    refine ⟨(c, edge), hqe, ?_⟩
    rw [hcomm]
    rfl


theorem mem_receivingSteps_iff (locals : LocalConfigurations)
    (group : Group) (env : Environment) (solver : Solver)
    (a : ModuleInstance) (b c : Nat) :
    (a, b, c) ∈ receivingSteps locals group env solver ↔
      ((a, b) ∈ locals ∧ ∃ edge ch,
        (c, edge) ∈ enabledEdges group solver env (a, b) ∧
        edge.communication = some (.recv ch false)) := by
  unfold receivingSteps
  rw [List.mem_flatMap]
  constructor
  · rintro ⟨p, hp, hmem⟩
    rw [List.mem_filterMap] at hmem
    obtain ⟨q, hq, hmatch⟩ := hmem
    cases hcomm : q.2.communication with
    | none => rw [hcomm] at hmatch; cases hmatch
    | some comm =>
      cases comm with
      | recv ch ext =>
        rw [hcomm] at hmatch
        dsimp only at hmatch
        cases ext with
        | true => simp at hmatch
        | false =>
          rw [if_neg (by simp)] at hmatch
          injection hmatch with h1
          injection h1 with ha hb
          injection hb with hc hd
          subst ha; subst hc; subst hd
          refine ⟨?_, q.2, ch, ?_, hcomm⟩
          · have hpe : p = (p.1, p.2) := rfl
            rw [← hpe]; exact hp
          · have hqe2 : q = (q.1, q.2) := rfl
            rw [← hqe2]; exact hq
      | send ch ext => rw [hcomm] at hmatch; cases hmatch
  · rintro ⟨hpl, edge, ch, hqe, hcomm⟩
    refine ⟨(a, b), hpl, ?_⟩
    rw [List.mem_filterMap]
    refine ⟨(c, edge), hqe, ?_⟩
    rw [hcomm]
    rfl

theorem mem_enabledEdges_lookup (group : Group) (solver : Solver)
    (env : Environment) (p : ModuleInstance × Nat) (c : Nat)
    (edge : EdgeInfo)
    (h : (c, edge) ∈ enabledEdges group solver env p) :
    ∃ cfsm, assocFind group p.1 = some cfsm ∧
      cfsm.fsm.edgeWeight c = some edge := by
  unfold enabledEdges at h
  cases hf : assocFind group p.1 with
  | none => rw [hf] at h; cases h
  | some cfsm =>
    rw [hf] at h
    rw [List.mem_filter] at h
    obtain ⟨hout, _⟩ := h
    rw [mem_outEdges] at hout
    obtain ⟨t, hg⟩ := hout
    refine ⟨cfsm, rfl, ?_⟩
    unfold FSM.edgeWeight
    rw [hg]
    rfl

theorem sendingSteps_channel (locals : LocalConfigurations)
    (group : Group) (env : Environment) (solver : Solver)
    (a : ModuleInstance) (b c : Nat)
    (h : (a, b, c) ∈ sendingSteps locals group env solver) :
    ∃ ch, retrieveChannelFromMap a c group = some ch := by
  rw [mem_sendingSteps_iff] at h
  obtain ⟨hpl, edge, ch, hqe, hcomm⟩ := h
  obtain ⟨cfsm, hf, hw⟩ := mem_enabledEdges_lookup group solver env (a, b) c edge hqe
  refine ⟨ch, ?_⟩
  unfold retrieveChannelFromMap
  rw [hf]
  dsimp only [Option.bind]
  rw [hw]
  dsimp only [Option.bind]
  rw [hcomm]
  rfl

theorem receivingSteps_channel (locals : LocalConfigurations)
    (group : Group) (env : Environment) (solver : Solver)
    (a : ModuleInstance) (b c : Nat)
    (h : (a, b, c) ∈ receivingSteps locals group env solver) :
    ∃ ch, retrieveChannelFromMap a c group = some ch := by
  rw [mem_receivingSteps_iff] at h
  obtain ⟨hpl, edge, ch, hqe, hcomm⟩ := h
  obtain ⟨cfsm, hf, hw⟩ := mem_enabledEdges_lookup group solver env (a, b) c edge hqe
  refine ⟨ch, ?_⟩
  unfold retrieveChannelFromMap
  rw [hf]
  dsimp only [Option.bind]
  rw [hw]
  dsimp only [Option.bind]
  rw [hcomm]
  rfl

theorem match_mem_deriveSteps_iff
    (jumps externals sendings receivings : List LocalStep) (group : Group)
    (si : ModuleInstance) (ss se : Nat) (ri : ModuleInstance)
    (rs re : Nat) :
    SynthesisStep.match_ si ss se ri rs re ∈
        deriveSteps jumps externals sendings receivings group ↔
      ((si, ss, se) ∈ sendings ∧ (ri, rs, re) ∈ receivings ∧ si ≠ ri ∧
        retrieveChannelFromMap si se group =
          retrieveChannelFromMap ri re group) := by
  unfold deriveSteps
  rw [List.mem_append, List.mem_append]
  constructor
  · rintro ((h | h) | h)
    · rw [List.mem_map] at h
      obtain ⟨p, _, hEq⟩ := h
      cases hEq
    · rw [List.mem_map] at h
      obtain ⟨p, _, hEq⟩ := h
      cases hEq
    · rw [List.mem_flatMap] at h
      obtain ⟨s, hsm, hr⟩ := h
      rw [List.mem_filterMap] at hr
      obtain ⟨r, hrm, hmatch⟩ := hr
      split at hmatch
      · next hcond =>
        injection hmatch with h1
        obtain ⟨hc1, hc2⟩ := hcond
        injection h1 with e1 e2 e3 e4 e5 e6
        subst e1; subst e2; subst e3; subst e4; subst e5; subst e6
        have hse2 : s = (s.1, s.2.1, s.2.2) := rfl
        have hre2 : r = (r.1, r.2.1, r.2.2) := rfl
        exact ⟨hse2 ▸ hsm, hre2 ▸ hrm, hc1, hc2⟩
      · cases hmatch
  · rintro ⟨hsm, hrm, hne, hch⟩
    right
    rw [List.mem_flatMap]
    refine ⟨(si, ss, se), hsm, ?_⟩
    rw [List.mem_filterMap]
    refine ⟨(ri, rs, re), hrm, ?_⟩
    rw [if_pos ⟨hne, hch⟩]


/-- Claim C8 (confirmed): a `Match` step is derived exactly for the
pairs of an enabled internal send and an enabled internal receive from
two different instances over one and the same channel; the product edge
emitted for a match carries no communication, the conjunction of the two
guards (a single present guard preserved as-is, no guard when both are
absent), and the sender's updates followed by the receiver's. -/
theorem match_step_characterization (locals : LocalConfigurations) (env : Environment)
    (solver : Solver) (group : Group) :
    (∀ (si : ModuleInstance) (ss se : Nat) (ri : ModuleInstance)
        (rs re : Nat),
      SynthesisStep.match_ si ss se ri rs re ∈
          deriveSteps (jumpSteps locals group env solver)
            (externalSteps locals group env solver)
            (sendingSteps locals group env solver)
            (receivingSteps locals group env solver) group ↔
        ((si, ss, se) ∈ sendingSteps locals group env solver ∧
          (ri, rs, re) ∈ receivingSteps locals group env solver ∧
          si ≠ ri ∧
          ∃ ch, retrieveChannelFromMap si se group = some ch ∧
            retrieveChannelFromMap ri re group = some ch))
    ∧ (∀ (si : ModuleInstance) (ss se : Nat) (ri : ModuleInstance)
        (rs re : Nat) (sE rE : EdgeInfo),
        ((assocFind group si).bind fun c0 => c0.fsm.edgeWeight se) =
          some sE →
        ((assocFind group ri).bind fun c0 => c0.fsm.edgeWeight re) =
          some rE →
        stepToEdgeInfo group (.match_ si ss se ri rs re) =
          some ⟨none, mergeGuard sE.guard rE.guard,
            sE.updates ++ rE.updates⟩)
    ∧ mergeGuard none none = none
    ∧ (∀ g, mergeGuard (some g) none = some g ∧
        mergeGuard none (some g) = some g)
    ∧ (∀ g h, mergeGuard (some g) (some h) = some (.and g h)) := by
  refine ⟨?_, ?_, rfl, fun g => ⟨rfl, rfl⟩, fun g h => rfl⟩
  · intro si ss se ri rs re
    rw [match_mem_deriveSteps_iff]
    constructor
    · rintro ⟨hsm, hrm, hne, hch⟩
      obtain ⟨ch, hc⟩ := sendingSteps_channel locals group env solver si ss se hsm
      exact ⟨hsm, hrm, hne, ch, hc, by rw [← hch]; exact hc⟩
    · rintro ⟨hsm, hrm, hne, ch, hc1, hc2⟩
      exact ⟨hsm, hrm, hne, by rw [hc1, hc2]⟩
  · intro si ss se ri rs re sE rE hsE hrE
    unfold stepToEdgeInfo
    dsimp only
    rw [hsE, hrE]
    rfl

/-- Witness for C8: the send/recv pair of `groupMatch` over channel
`c0` yields a match step. -/
theorem match_step_characterization_witness :
    SynthesisStep.match_ iA 0 0 iB 0 0 ∈
      deriveSteps (jumpSteps localsMatch groupMatch Environment.new solverTru)
        (externalSteps localsMatch groupMatch Environment.new solverTru)
        (sendingSteps localsMatch groupMatch Environment.new solverTru)
        (receivingSteps localsMatch groupMatch Environment.new solverTru)
        groupMatch :=
  ((match_step_characterization localsMatch Environment.new solverTru groupMatch).1
      iA 0 0 iB 0 0).mpr
    ⟨by decide, by decide, by decide, "c0", by decide, by decide⟩


theorem applyStep_preserves_distinct (group : Group) (s : SynthesisState)
    (sourceId : Nat) (initNode : Option BlankNode) (st : LoopState)
    (step : SynthesisStep) (h : VisitedDistinct st.visited) :
    VisitedDistinct (applyStep group s sourceId initNode st step).visited := by
  unfold applyStep
  dsimp only
  split
  · next hcond =>
    dsimp only [VisitedDistinct]
    rw [List.pairwise_append]
    refine ⟨h, List.pairwise_singleton _ _, ?_⟩
    intro a ha b hb
    rw [List.mem_singleton] at hb
    subst hb
    exact Bool.eq_false_of_not_eq_true (List.any_eq_false.mp hcond.1 a ha)
  · next => exact h

theorem foldl_applyStep_distinct (group : Group) (s : SynthesisState)
    (sourceId : Nat) (initNode : Option BlankNode) :
    ∀ (steps : List SynthesisStep) (st : LoopState),
      VisitedDistinct st.visited →
      VisitedDistinct
        ((steps.foldl (applyStep group s sourceId initNode) st).visited)
  | [], _, h => h
  | a :: l, st, h =>
    foldl_applyStep_distinct group s sourceId initNode l _
      (applyStep_preserves_distinct group s sourceId initNode st a h)

theorem processState_preserves_distinct (group : Group) (solver : Solver)
    (st : LoopState) (s : SynthesisState) (st' : LoopState)
    (h : processState group solver st s = .ok st')
    (hv : VisitedDistinct st.visited) : VisitedDistinct st'.visited := by
  unfold processState at h
  dsimp only at h
  cases hg : generateAllPossibleSynthesisSteps s.localConfigurations
      s.currentEnv solver group s.errorTrace with
  | error e => rw [hg] at h; cases h
  | ok steps =>
    rw [hg] at h
    injection h with h1
    subst h1
    exact foldl_applyStep_distinct group s _ _ steps _ hv

theorem synthLoop_preserves_distinct (group : Group) (solver : Solver) :
    ∀ (fuel : Nat) (st : LoopState), VisitedDistinct st.visited →
      VisitedDistinct ((synthLoop group solver fuel st).1).visited := by
  intro fuel
  induction fuel with
  | zero =>
    intro st h
    unfold synthLoop
    cases hq : st.queue with
    | nil =>
      rw [finishSynthesis_fst]
      exact h
    | cons a l => exact h
  | succ n ih =>
    intro st h
    cases hq : st.queue with
    | nil =>
      rw [synthLoop_empty_queue group solver (n + 1) st hq,
        finishSynthesis_fst]
      exact h
    | cons s rest =>
      rw [synthLoop_cons group solver n st s rest hq]
      cases hp : processState group solver { st with queue := rest } s with
      | error e => exact h
      | ok st' =>
        exact ih st' (processState_preserves_distinct group solver
          { st with queue := rest } s st' hp h)

/-- Claim C7 amended: a successor configuration is enqueued only when it
is not yet in the visited set (and is recorded as visited upon enqueue),
so the visited set of every synthesis run holds pairwise-distinct global
configurations: each (global node, environment) pair is explored at most
once.  The number of visited configurations is therefore bounded by the
number of distinct reachable (node, environment) pairs — which can
exceed the product of the local state-space sizes, since one global node
may be visited under several environments. -/
theorem bfs_visited_configurations_distinct (group : Group) (parent : ModuleInfo) (solver : Solver)
    (fuel : Nat) :
    VisitedDistinct ((synthesizeRun group parent solver fuel).1).visited := by
  unfold synthesizeRun
  dsimp only
  apply synthLoop_preserves_distinct
  exact List.pairwise_singleton _ _

end Verilock
